import Mathlib

/-!
Shallow embedding of the rainblock verifier core (block generator,
execution engine, network-learner hooks) from `src/src/gethImport.ts`
(which holds the current `BlockGenerator` class), with the RPC surface
from `src/src/verifierService.ts`.  Machine integers (`bigint` in the
source) are modelled as `Nat` with explicit `% 2^256` where u256
wrap-around matters; JS `Buffer`s are `List Nat` (byte lists); JS `Map`s
are association lists preserving insertion order (JS `Map.set` keeps the
original position of an existing key); thrown-and-caught JS errors are
explicit error results.  JS object references (the execution engine
mutates shared `EthereumAccount` objects) are modelled with an explicit
object store: ids index into a growing list and aliasing is preserved.

External collaborators (the Merkle-Patricia-Tree library, Keccak-256,
RLP codecs) are out of scope per the specification; they are modelled
by their consumed contracts: the cached tree is a finite map from
hashed addresses to slots (a direct value, or a hash-only stub that
resolves only when the needed node hash is present in the primary or
fallback bag), and hash/encoding primitives are parameters gathered in
`ExternalLib`, instantiated concretely in witnesses.
-/

namespace Rainblock

/-- u256 modulus. -/
def U256 : Nat := 2 ^ 256

/-- Source constant `MAX_256_UNSIGNED` (decimal literal in `gethImport.ts`). -/
def MAX_256_UNSIGNED : Nat :=
  115792089237316195423570985008687907853269984665640564039457584007913129639935

/-- Source `toBufferBE(v, n)` from `bigint-buffer`: the low `n` bytes of `v`,
big-endian. -/
def toBufferBE (v : Nat) : Nat → List Nat
  | 0 => []
  | n + 1 => toBufferBE (v / 256) n ++ [v % 256]

/-- Association-list lookup (JS `Map.get`). -/
def lookupA {α β : Type} [DecidableEq α] (m : List (α × β)) (k : α) : Option β :=
  match m with
  | [] => none
  | (k', v) :: rest => if k' = k then some v else lookupA rest k

/-- Association-list update (JS `Map.set`): an existing key keeps its
position, a new key is appended, preserving JS `Map` iteration order. -/
def setAssoc {α β : Type} [DecidableEq α] (m : List (α × β)) (k : α) (v : β) :
    List (α × β) :=
  match m with
  | [] => [(k, v)]
  | (k', v') :: rest => if k' = k then (k, v) :: rest else (k', v') :: setAssoc rest k v

/-- Association-list removal (JS `Map.delete`). -/
def eraseAssoc {α β : Type} [DecidableEq α] (m : List (α × β)) (k : α) :
    List (α × β) :=
  match m with
  | [] => []
  | (k', v') :: rest => if k' = k then rest else (k', v') :: eraseAssoc rest k

/-- Modelled from the spec: `EthereumAccount` (file `ethereumAccount.ts` is
not under `src/`).  Per §3 of the spec an account is the tuple
(nonce: u256, balance: u256, codeHash, storageRoot); JS `copy()` is
modelled by allocating a fresh object in the store. -/
structure EthereumAccount where
  nonce : Nat
  balance : Nat
  codeHash : Nat
  storageRoot : Nat
deriving DecidableEq, Repr, Inhabited

/-- Keccak-256 of the empty byte sequence (spec §3, sentinel digest). -/
def EthereumAccount.EMPTY_STRING_HASH : Nat :=
  0xc5d2460186f7233c927e7db2dcc703c0e500b653ca82273b7bfad8045d85a470

/-- Keccak-256 of the RLP encoding of an empty trie (spec §3, sentinel digest). -/
def EthereumAccount.EMPTY_BUFFER_HASH : Nat :=
  0x56e81f171bcc55a6ff8345e692c0f86e5b48e01b996cadc001622fb5e363b421

/-- Source `hasCode()` from the spec §3: codeHash differs from the empty-string hash. -/
def EthereumAccount.hasCode (a : EthereumAccount) : Bool :=
  decide (a.codeHash ≠ EthereumAccount.EMPTY_STRING_HASH)

/-- Modelled from the spec: the `CONTRACT_CREATION` sentinel of
`@rainblock/ethereum-block` (library not under `src/`): a distinguished
`to` value outside the 20-byte address range. -/
def CONTRACT_CREATION : Nat := 2 ^ 160

/-- Decoded Ethereum transaction fields consumed by the engine
(`tx.nonce`, `tx.from`, `tx.to`, `tx.value`); `from` and `to` are Lean
keywords, hence `from_` and `to_`. -/
structure EthereumTransaction where
  nonce : Nat
  from_ : Nat
  to_ : Nat
  value : Nat
deriving DecidableEq, Repr, Inhabited

/-- Source `TransactionData` from `gethImport.ts`.  The proof bag is modelled by
the set of node hashes it covers (node bodies live in the tree model);
the grpc reply `callback` is I/O and is omitted; `errorCode` is returned
separately by the execution engine. -/
structure TransactionData where
  txHash : Nat
  tx : EthereumTransaction
  txRlp : List Nat
  txBinary : List Nat
  proofs : List Nat
  fromHash : List Nat
  toHash : List Nat
deriving DecidableEq, Repr, Inhabited

/-- Source `ErrorCode` from `@rainblock/protocol` as used by the source. -/
inductive ErrorCode where
  | ERROR_CODE_SUCCESS
  | ERROR_CODE_INVALID
deriving DecidableEq, Repr, Inhabited

/-- A slot of the cached Merkle-Patricia tree, per the consumed contract
of spec §3: either a directly cached value, or a traversal that reaches
a hash-only stub with the given node hash; a resolved stub yields the
stored account (or key-not-found when the key is absent below the stub). -/
inductive TreeSlot where
  | val (a : EthereumAccount)
  | stub (h : Nat) (r : Option EthereumAccount)
deriving DecidableEq, Repr

/-- The cached Merkle-Patricia tree (consumed contract): a finite map
from hashed addresses to slots plus its root hash and the serialized
root node bytes (`RlpEncode(rootNode.serialize(...))`). -/
structure CachedTree where
  slots : List (List Nat × TreeSlot)
  rootHash : Nat
  rootSerialized : List Nat
deriving DecidableEq, Repr, Inhabited

/-- Errors of `getFromCache`: `MerkleKeyNotFoundError`, or any other
error (a pruned hash-only stub with no matching node in the bags). -/
inductive TreeGetError where
  | merkleKeyNotFound
  | prunedNodeMiss
deriving DecidableEq, Repr

/-- Source `tree.getFromCache(key, nodesUsed, nodeBag, fallbackBag)` contract:
return the cached value; at a hash-only stub consult the primary bag
then the fallback bag (membership of the stub hash), else fail
structurally; absent keys raise `MerkleKeyNotFoundError`.  (The library
also records traversed nodes into `nodesUsed`; no claim depends on that
set, so it is not tracked.) -/
def CachedTree.getFromCache (t : CachedTree) (key : List Nat)
    (nodeBag fallbackBag : List Nat) : Except TreeGetError EthereumAccount :=
  match lookupA t.slots key with
  | some (TreeSlot.val a) => Except.ok a
  | some (TreeSlot.stub h r) =>
      if h ∈ nodeBag ∨ h ∈ fallbackBag then
        match r with
        | some a => Except.ok a
        | none => Except.error TreeGetError.merkleKeyNotFound
      else Except.error TreeGetError.prunedNodeMiss
  | none => Except.error TreeGetError.merkleKeyNotFound

/-- Source `ConfigurationFile` options consumed by the embedded code.  JS
falsiness of `powMin`/`powMax` (undefined or 0) is modelled by
`Option Nat` with `some 0` also falsy. -/
structure ConfigurationFile where
  powMin : Option Nat
  powMax : Option Nat
  maxTxPerBlock : Option Nat
  shareBag : Bool
  generateFromAccounts : Bool
  disableNonceCheck : Bool
deriving DecidableEq, Repr, Inhabited

/-- JS falsiness test for an optional numeric config entry. -/
def jsFalsy (o : Option Nat) : Bool :=
  match o with
  | none => true
  | some n => decide (n = 0)

/-- Constructor fragment of `BlockGenerator` setting the default PoS
timer bounds: `if (!powMin) powMin = 5000; if (!powMax) powMax = 12000`. -/
def applyPowDefaults (c : ConfigurationFile) : ConfigurationFile :=
  let c1 := if jsFalsy c.powMin then { c with powMin := some 5000 } else c
  if jsFalsy c1.powMax then { c1 with powMax := some 12000 } else c1

/-- Source `EthereumHeader` as populated by `generateProofOfStake`. -/
structure EthereumHeader where
  parentHash : Nat
  uncleHash : Nat
  beneficiary : Nat
  stateRoot : Nat
  transactionsRoot : Nat
  receiptsRoot : Nat
  logsBloom : List Nat
  difficulty : Nat
  gasLimit : Nat
  gasUsed : Nat
  timestamp : Nat
  extraData : List Nat
  mixHash : Nat
  nonce : Nat
  blockNumber : Nat
deriving DecidableEq, Repr, Inhabited

/-- Source `EthereumBlock` from `@rainblock/ethereum-block` as consumed here:
a header plus decoded transactions (uncles are unsupported). -/
structure EthereumBlock where
  header : EthereumHeader
  transactions : List EthereumTransaction
deriving DecidableEq, Repr, Inhabited

/-- External library primitives (Keccak-256, RLP encoders, the MPT root
computations), out of scope per spec §1; every theorem quantifies over
them and witnesses instantiate them concretely.
`keccak` models `hashAsBigInt(KECCAK256, bytes)`;
`headerRlp` models `RlpEncode(encodeHeaderAsRLP(header))`;
`encodeBlock` models `encodeBlock(header, txRlps, [])`;
`cowRoot` models the root hash and serialized root node of the tree
produced by `batchCOWwithNodeBag`;
`txRoot` models `calculateTransactionsRoot`: the root of a fresh MPT
mapping each ASCII decimal index to the binary transaction. -/
structure ExternalLib where
  keccak : List Nat → Nat
  headerRlp : EthereumHeader → List Nat
  encodeBlock : EthereumHeader → List (List Nat) → List Nat
  cowRoot : List (List Nat × TreeSlot) → Nat × List Nat
  txRoot : List (List Nat) → Nat

/-- Source `hashAsBuffer(KECCAK256, bytes)`: the 32-byte big-endian buffer of
the Keccak digest. -/
def hashAsBuffer (ext : ExternalLib) (bytes : List Nat) : List Nat :=
  toBufferBE (ext.keccak bytes) 32

/-- Per-account write-set entry (`WriteSetChanges`): the JS `account`
field is an object reference, modelled by an id into the execution
store; `nonce` and `balance` are the snapshots taken by
`updateWriteSet` at insertion time, exactly as in the source. -/
structure WriteSetChanges where
  hashedAddress : List Nat
  accountId : Nat
  nonce : Nat
  balance : Nat
deriving DecidableEq, Repr, Inhabited

/-- Mutable state threaded through `orderAndExecuteTransactions`:
the object store (JS heap for `EthereumAccount` objects; ids are list
indices and aliasing is preserved), the write-set keyed by unhashed
address, and the shared proof bag (`shareBag`), kept as a set of node
hashes. -/
structure ExecState where
  store : List EthereumAccount
  writeSet : List (Nat × WriteSetChanges)
  shareBag : List Nat
deriving DecidableEq, Repr, Inhabited

/-- Read an account object from the store (JS dereference). -/
def getStore (s : ExecState) (i : Nat) : EthereumAccount :=
  s.store.getD i default

/-- Overwrite an account object in the store (JS field assignment on a
shared object; `List.set` out of range is the identity, which is
unreachable for ids produced by `getAccount`). -/
def setStore (s : ExecState) (i : Nat) (a : EthereumAccount) : ExecState :=
  { s with store := s.store.set i a }

/-- Allocate a fresh account object (JS `new` / `copy()`), returning its id. -/
def alloc (s : ExecState) (a : EthereumAccount) : Nat × ExecState :=
  (s.store.length, { s with store := s.store ++ [a] })

/-- Errors thrown by `getAccount`. -/
inductive GetAccountError where
  | accountDoesNotExist
  | notEnoughNodes
deriving DecidableEq, Repr

/-- Source `BlockGenerator.getAccount`: consult the write-set (returning the
shared draft object — no copy, so later mutations alias), else fetch
from the tree producing a copy; on `MerkleKeyNotFoundError` synthesize
an account with balance `MAX_256_UNSIGNED` and nonce `generateNonce`
when `generate` is set, else throw; on a pruned-node miss throw.  The
JS return type is nullable, so the result carries `Option Nat`, but
every successful path yields `some`. -/
def getAccount (s : ExecState) (tree : CachedTree) (lastLearnedNodes : List Nat)
    (unhashed : Nat) (hashedAddress : List Nat) (nodeBag : List Nat)
    (generate : Bool) (generateNonce : Nat) :
    Except GetAccountError (Option Nat × ExecState) :=
  match lookupA s.writeSet unhashed with
  | some optimisticData => Except.ok (some optimisticData.accountId, s)
  | none =>
      match tree.getFromCache hashedAddress nodeBag lastLearnedNodes with
      | Except.ok a =>
          let (i, s1) := alloc s a
          Except.ok (some i, s1)
      | Except.error TreeGetError.merkleKeyNotFound =>
          if generate then
            let (i, s1) := alloc s
              (EthereumAccount.mk generateNonce MAX_256_UNSIGNED
                EthereumAccount.EMPTY_STRING_HASH EthereumAccount.EMPTY_BUFFER_HASH)
            Except.ok (some i, s1)
          else Except.error GetAccountError.accountDoesNotExist
      | Except.error TreeGetError.prunedNodeMiss =>
          Except.error GetAccountError.notEnoughNodes

/-- Source `BlockGenerator.updateWriteSet`: store the entry with snapshots of
the account's current nonce and balance (the trailing `usedNodes` and
`nodeBag` parameters of the source are unused there and omitted). -/
def updateWriteSet (s : ExecState) (address : Nat) (hashedAddress : List Nat)
    (accountId : Nat) : ExecState :=
  let a := getStore s accountId
  { s with writeSet :=
      (setAssoc s.writeSet address
        (WriteSetChanges.mk hashedAddress accountId a.nonce a.balance)) }

/-- Per-transaction stage 0: in proposal mode every proof of the
transaction is merged into the shared bag (`shareBag.set`) and the
byte bag (the latter feeds only the node re-advertisement, which no
claim touches). -/
def addTxProofsToBags (verifyOnly : Bool) (s : ExecState) (tx : TransactionData) :
    ExecState :=
  if verifyOnly then s
  else { s with shareBag := s.shareBag ++ tx.proofs.filter (fun h => h ∉ s.shareBag) }

/-- The proof bag used for this transaction: in verify mode the learned
nodes; with `shareBag` enabled the shared bag (a live reference in the
source, so it already includes this transaction's own proofs merged by
stage 0); otherwise the transaction's own bag. -/
def txProofs (cfg : ConfigurationFile) (verifyOnly : Bool) (learnedNodes : List Nat)
    (shareBagNow : List Nat) (tx : TransactionData) : List Nat :=
  if verifyOnly then learnedNodes
  else if cfg.shareBag then shareBagNow else tx.proofs

/-- The `FROM` fetch of `orderAndExecuteTransactions`:
`getAccount(writeSet, tx.tx.from, tx.fromHash, proofs, nodesUsed,
generateFromAccounts, tx.tx.nonce)` applied after stage 0. -/
def fromFetch (cfg : ConfigurationFile) (verifyOnly : Bool) (tree : CachedTree)
    (learnedNodes lastLearnedNodes : List Nat) (s : ExecState) (tx : TransactionData) :
    Except GetAccountError (Option Nat × ExecState) :=
  let s0 := addTxProofsToBags verifyOnly s tx
  getAccount s0 tree lastLearnedNodes tx.tx.from_ tx.fromHash
    (txProofs cfg verifyOnly learnedNodes s0.shareBag tx) cfg.generateFromAccounts tx.tx.nonce

/-- The `TO` fetch: `getAccount(writeSet, tx.tx.to, tx.toHash, proofs,
nodesUsed)` with `generate = false`. -/
def toFetch (tree : CachedTree) (lastLearnedNodes : List Nat) (proofs : List Nat)
    (s : ExecState) (tx : TransactionData) :
    Except GetAccountError (Option Nat × ExecState) :=
  getAccount s tree lastLearnedNodes tx.tx.to_ tx.toHash proofs false 0

/-- Source `fromAccount.nonce += 1n` (u256 modular, spec §4.1). -/
def bumpNonce (s : ExecState) (i : Nat) : ExecState :=
  let a := getStore s i
  setStore s i { a with nonce := (a.nonce + 1) % U256 }

/-- The `if (toAccount === null)` branch of
`orderAndExecuteTransactions`: the recipient-creation path.
`getAccount` never returns null (it throws instead), so this branch is
dead code in the source; it is still modelled faithfully.
`fromAccount.balance -= tx.tx.value` is modelled from the spec
(`ethereumAccount.ts` is not under `src/`): §4.1 makes an underflow
during the debit an execution error, so `tx.value > balance` throws
(re-raised here as `ERROR_CODE_INVALID` by the catch of the source,
with the nonce increment already applied, exactly as in JS). -/
def execCreateBranch (s2 : ExecState) (fid : Nat) (tx : TransactionData) :
    ExecState × ErrorCode :=
  let p := alloc s2
    (EthereumAccount.mk 0 tx.tx.value
      EthereumAccount.EMPTY_STRING_HASH EthereumAccount.EMPTY_BUFFER_HASH)
  let s3 := bumpNonce p.2 fid
  if tx.tx.value > (getStore s3 fid).balance then
    (s3, ErrorCode.ERROR_CODE_INVALID)
  else
    let s4 := setStore s3 fid
      { getStore s3 fid with balance := (getStore s3 fid).balance - tx.tx.value }
    let s5 := updateWriteSet s4 tx.tx.to_ tx.toHash p.1
    let s6 := updateWriteSet s5 tx.tx.from_ tx.fromHash fid
    (s6, ErrorCode.ERROR_CODE_SUCCESS)

/-- The non-null recipient branch of `orderAndExecuteTransactions`:
when the recipient has code, only a warning is logged (no transfer) and
the transaction still succeeds; otherwise the simple transfer runs:
`from.nonce += 1`, the debit (modelled from the spec: underflow is an
execution error, caught as `ERROR_CODE_INVALID` with the nonce
increment persisting), the modular credit, and both write-set
updates. -/
def execTransferBranch (s2 : ExecState) (fid tid : Nat) (tx : TransactionData) :
    ExecState × ErrorCode :=
  if (getStore s2 tid).hasCode then
    (s2, ErrorCode.ERROR_CODE_SUCCESS)
  else
    let s3 := bumpNonce s2 fid
    if tx.tx.value > (getStore s3 fid).balance then
      (s3, ErrorCode.ERROR_CODE_INVALID)
    else
      let s4 := setStore s3 fid
        { getStore s3 fid with balance := (getStore s3 fid).balance - tx.tx.value }
      let s5 := setStore s4 tid
        { getStore s4 tid with
            balance := ((getStore s4 tid).balance + tx.tx.value) % U256 }
      let s6 := updateWriteSet s5 tx.tx.to_ tx.toHash tid
      let s7 := updateWriteSet s6 tx.tx.from_ tx.fromHash fid
      (s7, ErrorCode.ERROR_CODE_SUCCESS)

/-- The body of the per-transaction `try` block of
`orderAndExecuteTransactions`, returning the state after the
transaction together with its `errorCode`.  Any thrown error is caught
by the `catch` of the source, which sets `ERROR_CODE_INVALID`; heap
mutations made before the throw persist, exactly as in JS.  The two
recipient branches are `execCreateBranch` and `execTransferBranch`. -/
def executeOneTx (cfg : ConfigurationFile) (verifyOnly : Bool) (tree : CachedTree)
    (learnedNodes lastLearnedNodes : List Nat) (s : ExecState) (tx : TransactionData) :
    ExecState × ErrorCode :=
  let s0 := addTxProofsToBags verifyOnly s tx
  let proofs := txProofs cfg verifyOnly learnedNodes s0.shareBag tx
  match fromFetch cfg verifyOnly tree learnedNodes lastLearnedNodes s tx with
  | Except.error _ => (s0, ErrorCode.ERROR_CODE_INVALID)
  | Except.ok (none, s1) =>
      -- JS would raise a TypeError dereferencing null; unreachable.
      (s1, ErrorCode.ERROR_CODE_INVALID)
  | Except.ok (some fid, s1) =>
      if ¬ cfg.disableNonceCheck ∧ tx.tx.nonce ≠ (getStore s1 fid).nonce then
        (s1, ErrorCode.ERROR_CODE_INVALID)
      else if tx.tx.to_ = CONTRACT_CREATION then
        (s1, ErrorCode.ERROR_CODE_INVALID)
      else
        match toFetch tree lastLearnedNodes proofs s1 tx with
        | Except.error _ => (s1, ErrorCode.ERROR_CODE_INVALID)
        | Except.ok (none, s2) => execCreateBranch s2 fid tx
        | Except.ok (some tid, s2) => execTransferBranch s2 fid tid tx

/-- The transaction loop of `orderAndExecuteTransactions`, in queue
order (FIFO): each transaction receives an error code and successful
transactions are pushed onto `order`. -/
def execLoop (cfg : ConfigurationFile) (verifyOnly : Bool) (tree : CachedTree)
    (learnedNodes lastLearnedNodes : List Nat) (s : ExecState) :
    List TransactionData → ExecState × List (TransactionData × ErrorCode) × List TransactionData
  | [] => (s, [], [])
  | tx :: rest =>
      let r := executeOneTx cfg verifyOnly tree learnedNodes lastLearnedNodes s tx
      let t := execLoop cfg verifyOnly tree learnedNodes lastLearnedNodes r.1 rest
      (t.1, (tx, r.2) :: t.2.1,
        (if r.2 = ErrorCode.ERROR_CODE_SUCCESS then [tx] else []) ++ t.2.2)

/-- Source `tree.batchCOWwithNodeBag(puts, usedNodes, nodeBag, fallbackBag)`
contract (spec §3): a new tree containing the previous keys plus the
puts; its root data come from the external library. -/
def CachedTree.batchCOWwithNodeBag (ext : ExternalLib) (t : CachedTree)
    (puts : List (List Nat × EthereumAccount)) : CachedTree :=
  let slots := puts.foldl (fun sl p => setAssoc sl p.1 (TreeSlot.val p.2)) t.slots
  let r := ext.cowRoot slots
  CachedTree.mk slots r.1 r.2

/-- Source `BlockGenerator.generateCopyOnWriteTree`: puts are built from the
write-set in iteration order, keyed by hashed address, valued by the
(live) account object. -/
def generateCopyOnWriteTree (ext : ExternalLib) (tree : CachedTree) (s : ExecState) :
    CachedTree :=
  CachedTree.batchCOWwithNodeBag ext tree
    (s.writeSet.map (fun e => (e.2.hashedAddress, getStore s e.2.accountId)))

/-- Source `ExecutionResult` of `orderAndExecuteTransactions`; `gasUsed` is
always 0 (EVM out of scope); `timestamp` is the wall clock passed in as
`now` (`Date.now()`); `executionTime` is real time and is not modelled.
The model additionally exposes the final store and the per-transaction
error codes (`tx.errorCode` assignments) so that claims can inspect
them. -/
structure ExecutionResult where
  stateRoot : Nat
  gasUsed : Nat
  timestamp : Nat
  order : List TransactionData
  writeSet : List (Nat × WriteSetChanges)
  store : List EthereumAccount
  codes : List (TransactionData × ErrorCode)
  newTree : CachedTree

/-- Source `BlockGenerator.orderAndExecuteTransactions`: run the loop from an
empty write-set, shared bag and store, then materialize the
copy-on-write tree (in verify mode its primary bag is `learnedNodes`,
else the shared bag, with `lastLearnedNodes` as fallback — bag contents
do not affect the batch-put contract modelled here). -/
def orderAndExecuteTransactions (ext : ExternalLib) (cfg : ConfigurationFile)
    (tree : CachedTree) (learnedNodes lastLearnedNodes : List Nat) (now : Nat)
    (transactions : List TransactionData) (verifyOnly : Bool) : ExecutionResult :=
  let r := execLoop cfg verifyOnly tree learnedNodes lastLearnedNodes
    (ExecState.mk [] [] []) transactions
  let newTree := generateCopyOnWriteTree ext tree r.1
  ExecutionResult.mk newTree.rootHash 0 now r.2.2 r.1.writeSet r.1.store r.2.1 newTree

/-- The `BlockGenerator` fields relevant to the embedded operations.
`learnedNodes` and `lastLearnedNodes` are kept as the sets of node
hashes they cover; `learnedBlocks` maps block numbers to blocks;
`resolverArmed` records whether `getBlockAdvertisementPromise` has
installed the race resolver (the constructor installs a no-op). -/
structure GenState where
  blockNumber : Nat
  parentHash : Nat
  difficulty : Nat
  gasLimit : Nat
  beneficiary : Nat
  learnedNodes : List Nat
  lastLearnedNodes : List Nat
  learnedBlocks : List (Nat × EthereumBlock)
  tree : CachedTree
  txQueue : List TransactionData
  neighborBlock : Option EthereumBlock
  resolverArmed : Bool
deriving DecidableEq, Repr, Inhabited

/-- Source `BlockGenerator.addTransaction`: the hash argument is ignored and
the data is pushed to the tail of the queue array. -/
def addTransaction (txQueue : List TransactionData) (hash : Nat)
    (data : TransactionData) : List TransactionData :=
  txQueue ++ [data]

/-- Source `BlockGenerator.generateProofOfStake`: a promise that resolves via
`setTimeout(..., 900)` — after a fixed 900 ms delay — with the header
shown; the first component is the millisecond delay passed to
`setTimeout`, the second the header it resolves with. -/
def generateProofOfStake (s : GenState) (executionResult : ExecutionResult)
    (transactionsRoot : Nat) : Nat × EthereumHeader :=
  (900,
    EthereumHeader.mk
      s.parentHash
      0
      s.beneficiary
      executionResult.stateRoot
      transactionsRoot
      0
      []
      s.difficulty
      s.gasLimit
      executionResult.gasUsed
      executionResult.timestamp
      [114, 97, 105, 110, 98, 108, 111, 99, 107]
      0
      0
      s.blockNumber)

/-- The closure stored into `blockResolver` by
`getBlockAdvertisementPromise`: it assigns `this.neighborBlock = b` and
then evaluates the bare expression statement `resolve;` — referencing
the promise's resolve function without invoking it — so the pending
race promise is never resolved.  The boolean result records whether the
promise was resolved.  Before the resolver is armed, `blockResolver` is
the constructor's no-op. -/
def runBlockResolver (s : GenState) (b : EthereumBlock) : GenState × Bool :=
  if s.resolverArmed then ({ s with neighborBlock := some b }, false)
  else (s, false)

/-- Source `BlockGenerator.learnBlock`: future blocks (strictly greater block
number) are stored in `learnedBlocks`; a block whose parent hash does
not match ours is only logged; otherwise the stored resolver runs.  The
boolean records whether the race promise got resolved. -/
def learnBlock (s : GenState) (b : EthereumBlock) : GenState × Bool :=
  let s1 :=
    if b.header.blockNumber > s.blockNumber then
      { s with learnedBlocks := setAssoc s.learnedBlocks b.header.blockNumber b }
    else s
  if b.header.parentHash ≠ s1.parentHash then (s1, false)
  else runBlockResolver s1 b

/-- Source `BlockGenerator.learnNode`. -/
def learnNode (s : GenState) (hash : Nat) : GenState :=
  if hash ∈ s.learnedNodes then s else { s with learnedNodes := s.learnedNodes ++ [hash] }

/-- Source `UpdateOp` of the storage-shard protocol as filled by
`proposeBlock`: the unhashed 20-byte address, the 32-byte big-endian
balance, and the nonce (`setNonce(Number(changes.nonce))`, a fixed64
field; JS `Number` is exact below 2^53 and the numeric value is carried
here). -/
structure UpdateOp where
  account : List Nat
  balance : List Nat
  nonce : Nat
deriving DecidableEq, Repr, Inhabited

/-- Source `UpdateMsg` of the storage-shard protocol. -/
structure UpdateMsg where
  rlpBlock : List Nat
  merkleTreeNodes : List Nat
  operations : List UpdateOp
deriving DecidableEq, Repr, Inhabited

/-- Shard index of a write-set entry:
`(changes.hashedAddress[0] & 0xF0) >> 4`. -/
def shardOf (changes : WriteSetChanges) : Nat :=
  ((changes.hashedAddress.headD 0) &&& 0xF0) >>> 4

/-- The op built for one write-set entry: `account` is the UNHASHED
address (the storage unit re-hashes it). -/
def buildUpdateOp (account : Nat) (changes : WriteSetChanges) : UpdateOp :=
  UpdateOp.mk (toBufferBE account 20) (toBufferBE changes.balance 32) changes.nonce

/-- The 16 shard messages assembled by `BlockGenerator.proposeBlock`:
each carries the RLP block, the serialized current root node, and the
write-set entries whose hashed address routes to that shard. -/
def buildShardMessages (ext : ExternalLib) (tree : CachedTree)
    (header : EthereumHeader) (execution : ExecutionResult) : List UpdateMsg :=
  let block := ext.encodeBlock header (execution.order.map (fun d => d.txRlp))
  (List.range 16).map (fun i =>
    UpdateMsg.mk block tree.rootSerialized
      ((execution.writeSet.filter (fun e => shardOf e.2 = i)).map
        (fun e => buildUpdateOp e.1 e.2)))

/-- Source `BlockGenerator.proposeBlock` result value: after all shard updates
succeed it returns `Keccak(RlpEncode(encodeHeaderAsRLP(header)))`,
which the caller installs as the new parent hash. -/
def proposeBlockHash (ext : ExternalLib) (header : EthereumHeader) : Nat :=
  ext.keccak (ext.headerRlp header)

/-- Source `BlockGenerator.adoptAlternativeBlock`: build synthetic
`TransactionData` for every peer transaction (empty proofs, hashes of
the 20-byte from/to addresses), re-execute in verify mode on the
original tree against the learned nodes, install the resulting tree
unconditionally, and set `parentHash = Keccak(RLP(peer header))` and
`blockNumber = peer number + 1`.  No comparison of the resulting root
hash with the peer header's `stateRoot` is performed.
The synthetic transaction list is split out as `altTxData`. -/
def altTxData (ext : ExternalLib) (alt : EthereumBlock) : List TransactionData :=
  alt.transactions.map (fun tx =>
    TransactionData.mk 0 tx [] [] []
      (hashAsBuffer ext (toBufferBE tx.from_ 20))
      (hashAsBuffer ext (toBufferBE tx.to_ 20)))

/-- See `altTxData`: the adoption step itself. -/
def adoptAlternativeBlock (ext : ExternalLib) (cfg : ConfigurationFile) (now : Nat)
    (s : GenState) (alt : EthereumBlock) : GenState :=
  let newResult := orderAndExecuteTransactions ext cfg s.tree s.learnedNodes
    s.lastLearnedNodes now (altTxData ext alt) true
  let blockhash := ext.keccak (ext.headerRlp alt.header)
  { s with
      tree := newResult.newTree
      parentHash := blockhash
      blockNumber := alt.header.blockNumber + 1 }

/-- The gather step of the loop: take up to `maxTxPerBlock` from the
head of the queue (the whole queue when unset). -/
def gatherTxs (cfg : ConfigurationFile) (txQueue : List TransactionData) :
    List TransactionData :=
  match cfg.maxTxPerBlock with
  | some m => txQueue.take m
  | none => txQueue

/-- The queue remainder left behind by the gather step. -/
def remainderTxs (cfg : ConfigurationFile) (txQueue : List TransactionData) :
    List TransactionData :=
  match cfg.maxTxPerBlock with
  | some m => txQueue.drop m
  | none => []

/-- One iteration of the `BlockGenerator.generate` loop, returning the
new state and the header of the block adopted as the new parent.
`nbAtRace` is the value of `this.neighborBlock` when the race settles:
the only way the race settles is the PoS timer (the peer-block promise
is never resolved, see `runBlockResolver`), and concurrent `learnBlock`
calls during the wait may have stored a neighbor block; the oracle
parameter ranges over every such environment behaviour.  When
`learnedBlocks` holds a block for the current height it is adopted
up-front and removed; otherwise the timer header either survives the
neighbor-block check and is proposed (rotating the learned-node tables,
installing the execution tree, advancing the height), or the neighbor
block for this height is adopted and the batch is requeued at the tail. -/
def generateStep (ext : ExternalLib) (cfg : ConfigurationFile) (now : Nat)
    (nbAtRace : Option EthereumBlock) (s : GenState) : GenState × EthereumHeader :=
  match lookupA s.learnedBlocks s.blockNumber with
  | some alt =>
      let s1 := adoptAlternativeBlock ext cfg now s alt
      ({ s1 with learnedBlocks := eraseAssoc s1.learnedBlocks s.blockNumber }, alt.header)
  | none =>
      let sArmed := { s with resolverArmed := true }
      let blockTransactions := gatherTxs cfg sArmed.txQueue
      let sQ := { sArmed with txQueue := remainderTxs cfg sArmed.txQueue }
      let executionResult := orderAndExecuteTransactions ext cfg sQ.tree sQ.learnedNodes
        sQ.lastLearnedNodes now blockTransactions false
      let transactionsRoot := ext.txRoot (executionResult.order.map (fun d => d.txBinary))
      let header := (generateProofOfStake sQ executionResult transactionsRoot).2
      let sR := { sQ with neighborBlock := nbAtRace }
      match nbAtRace with
      | some nb =>
          if nb.header.blockNumber = s.blockNumber then
            let s1 := adoptAlternativeBlock ext cfg now sR nb
            ({ s1 with txQueue := s1.txQueue ++ blockTransactions }, nb.header)
          else
            ({ sR with
                lastLearnedNodes := sR.learnedNodes
                learnedNodes := []
                parentHash := proposeBlockHash ext header
                tree := executionResult.newTree
                blockNumber := sR.blockNumber + 1 }, header)
      | none =>
          ({ sR with
              lastLearnedNodes := sR.learnedNodes
              learnedNodes := []
              parentHash := proposeBlockHash ext header
              tree := executionResult.newTree
              blockNumber := sR.blockNumber + 1 }, header)

/-- The balance of an address as seen through the write-set overlay
(dereferencing the live account object). -/
def wsBalance (s : ExecState) (addr : Nat) : Option Nat :=
  (lookupA s.writeSet addr).map (fun d => (getStore s d.accountId).balance)

/-- The nonce of an address as seen through the write-set overlay
(dereferencing the live account object). -/
def wsNonce (s : ExecState) (addr : Nat) : Option Nat :=
  (lookupA s.writeSet addr).map (fun d => (getStore s d.accountId).nonce)

/-- The invariant real executions maintain on the write-set: every
entry references an allocated object and no two entries share an
object. -/
def wellFormedWS (s : ExecState) : Prop :=
  (∀ e ∈ s.writeSet, e.2.accountId < s.store.length) ∧
  s.writeSet.Pairwise (fun a b => a.2.accountId ≠ b.2.accountId)

section Fixtures

/-- A trivial instantiation of the external library used by concrete
counterexamples and witnesses. -/
def extZero : ExternalLib :=
  ExternalLib.mk (fun _ => 0) (fun _ => []) (fun _ _ => []) (fun _ => (0, [])) (fun _ => 0)

/-- The all-defaults configuration (no option set). -/
def cfgZero : ConfigurationFile :=
  ConfigurationFile.mk none none none false false false

/-- An account with the sentinel code and storage hashes (no code). -/
def plainAccount (nonce balance : Nat) : EthereumAccount :=
  EthereumAccount.mk nonce balance
    EthereumAccount.EMPTY_STRING_HASH EthereumAccount.EMPTY_BUFFER_HASH

/-- Tree used in concrete runs: address hash `[1]` holds account A with
nonce 0 and balance 100; nothing else is present. -/
def treeA : CachedTree :=
  CachedTree.mk [([1], TreeSlot.val (plainAccount 0 100))] 0 []

/-- Tree holding A (`[1]`, nonce 0, balance 100) and C (`[2]`, nonce 0,
balance 0). -/
def treeAC : CachedTree :=
  CachedTree.mk
    [([1], TreeSlot.val (plainAccount 0 100)),
     ([2], TreeSlot.val (plainAccount 0 0))] 0 []

/-- Transaction A(address 10) → B(address 11), nonce 0, value 40; B is
absent from `treeA`. -/
def txToAbsent : TransactionData :=
  TransactionData.mk 1 (EthereumTransaction.mk 0 10 11 40) [] [] [] [1] [2]

/-- Transaction A(10) → C(11), nonce 0, value 10 (succeeds on `treeAC`). -/
def txTransfer1 : TransactionData :=
  TransactionData.mk 1 (EthereumTransaction.mk 0 10 11 10) [] [] [] [1] [2]

/-- Transaction A(10) → C(11), nonce 1, value 1000: its debit underflows
after `txTransfer1` leaves A with balance 90. -/
def txOverdraw : TransactionData :=
  TransactionData.mk 2 (EthereumTransaction.mk 1 10 11 1000) [] [] [] [1] [2]

/-- Block-generator state with an armed race resolver at height 5,
parent hash 77. -/
def genStateAt5 : GenState :=
  GenState.mk 5 77 0 0 0 [] [] [] (CachedTree.mk [] 3 []) [] none true

/-- A peer block for the current height 5 whose parent hash matches 77
and whose claimed state root 999 differs from any root `extZero`
computes. -/
def peerBlockAt5 : EthereumBlock :=
  EthereumBlock.mk (EthereumHeader.mk 77 0 0 999 0 0 [] 0 0 0 0 [] 0 0 5) []

/-- Block-generator state used by the C7 witness: height 5, no learned
blocks, empty queue. -/
def genStateC7 : GenState :=
  GenState.mk 5 77 0 0 0 [] [] [] (CachedTree.mk [] 3 []) [] none false

/-- A trivial execution result (used to evaluate the PoS timer). -/
def erZero : ExecutionResult :=
  ExecutionResult.mk 0 0 0 [] [] [] [] (CachedTree.mk [] 0 [])

/-- Transaction A(10) → C(11), nonce 0, value 1000: overdraws A's
balance of 100 on `treeAC` directly from genesis state. -/
def txOverdrawNonce0 : TransactionData :=
  TransactionData.mk 2 (EthereumTransaction.mk 0 10 11 1000) [] [] [] [1] [2]

/-- The empty execution state. -/
def execStateZero : ExecState := ExecState.mk [] [] []

/-- The execution-state view of an `ExecutionResult` (its final store
and write-set), for inspecting the write-set through the store. -/
def resultState (r : ExecutionResult) : ExecState := ExecState.mk r.store r.writeSet []

/-- An all-zero header. -/
def hdrZero : EthereumHeader := EthereumHeader.mk 0 0 0 0 0 0 [] 0 0 0 0 [] 0 0 0

end Fixtures

/-! Helper lemmas about the association-list, store and fetch
operations, shared by several claim theorems. -/

theorem lookupA_mem {α β : Type} [DecidableEq α] {m : List (α × β)} {k : α} {v : β}
    (h : lookupA m k = some v) : (k, v) ∈ m := by
  induction m with
  | nil => simp [lookupA] at h
  | cons e rest ih =>
      obtain ⟨ek, ev⟩ := e
      simp only [lookupA] at h
      by_cases hk : ek = k
      · rw [if_pos hk] at h
        injection h with h
        subst hk
        subst h
        exact List.mem_cons_self _ _
      · rw [if_neg hk] at h
        exact List.mem_cons_of_mem _ (ih h)

theorem lookupA_pairwise_ne {β : Type} {R : Nat × β → Nat × β → Prop}
    {ws : List (Nat × β)} (hp : ws.Pairwise R)
    (hsymm : ∀ a b, R a b → R b a) {k1 k2 : Nat} {d1 d2 : β}
    (hk : k1 ≠ k2) (h1 : lookupA ws k1 = some d1) (h2 : lookupA ws k2 = some d2) :
    R (k1, d1) (k2, d2) := by
  induction ws with
  | nil => simp [lookupA] at h1
  | cons e rest ih =>
      obtain ⟨ek, ev⟩ := e
      rcases List.pairwise_cons.mp hp with ⟨he, hrest⟩
      simp only [lookupA] at h1 h2
      by_cases hk1 : ek = k1
      · rw [if_pos hk1] at h1
        rw [if_neg (by rw [hk1]; exact hk)] at h2
        injection h1 with h1
        subst hk1
        subst h1
        exact he (k2, d2) (lookupA_mem h2)
      · by_cases hk2 : ek = k2
        · rw [if_neg hk1] at h1
          rw [if_pos hk2] at h2
          injection h2 with h2
          subst hk2
          subst h2
          exact hsymm _ _ (he (k1, d1) (lookupA_mem h1))
        · rw [if_neg hk1] at h1
          rw [if_neg hk2] at h2
          exact ih hrest h1 h2

theorem addTxProofsToBags_writeSet (vo : Bool) (s : ExecState) (tx : TransactionData) :
    (addTxProofsToBags vo s tx).writeSet = s.writeSet := by
  unfold addTxProofsToBags
  split <;> rfl

theorem addTxProofsToBags_store (vo : Bool) (s : ExecState) (tx : TransactionData) :
    (addTxProofsToBags vo s tx).store = s.store := by
  unfold addTxProofsToBags
  split <;> rfl

/-- Case analysis on a successful `getAccount`: a write-set hit returns
the stored object id and leaves the state alone; otherwise one object
is appended and its id returned. -/
theorem getAccount_cases {s : ExecState} {tree : CachedTree} {ll : List Nat}
    {u : Nat} {ha : List Nat} {bag : List Nat} {gen : Bool} {gn : Nat}
    {o : Option Nat} {s' : ExecState}
    (h : getAccount s tree ll u ha bag gen gn = Except.ok (o, s')) :
    (∃ d, lookupA s.writeSet u = some d ∧ o = some d.accountId ∧ s' = s) ∨
    (∃ a, o = some s.store.length ∧ s' = { s with store := s.store ++ [a] }) := by
  unfold getAccount at h
  cases hws : lookupA s.writeSet u with
  | some d =>
      rw [hws] at h
      cases h
      exact Or.inl ⟨d, rfl, rfl, rfl⟩
  | none =>
      rw [hws] at h
      cases hc : tree.getFromCache ha bag ll with
      | ok a =>
          rw [hc] at h
          simp only [alloc] at h
          cases h
          exact Or.inr ⟨a, rfl, rfl⟩
      | error e =>
          rw [hc] at h
          cases e with
          | merkleKeyNotFound =>
              by_cases hg : gen
              · rw [if_pos hg] at h
                simp only [alloc] at h
                cases h
                exact Or.inr ⟨_, rfl, rfl⟩
              · rw [if_neg hg] at h
                cases h
          | prunedNodeMiss => cases h

theorem getAccount_writeSet {s : ExecState} {tree : CachedTree} {ll : List Nat}
    {u : Nat} {ha : List Nat} {bag : List Nat} {gen : Bool} {gn : Nat}
    {o : Option Nat} {s' : ExecState}
    (h : getAccount s tree ll u ha bag gen gn = Except.ok (o, s')) :
    s'.writeSet = s.writeSet := by
  rcases getAccount_cases h with ⟨d, _, _, hs⟩ | ⟨a, _, hs⟩ <;> rw [hs]

theorem getAccount_shareBag {s : ExecState} {tree : CachedTree} {ll : List Nat}
    {u : Nat} {ha : List Nat} {bag : List Nat} {gen : Bool} {gn : Nat}
    {o : Option Nat} {s' : ExecState}
    (h : getAccount s tree ll u ha bag gen gn = Except.ok (o, s')) :
    s'.shareBag = s.shareBag := by
  rcases getAccount_cases h with ⟨d, _, _, hs⟩ | ⟨a, _, hs⟩ <;> rw [hs]

/-- A successful `getAccount` only ever appends to the store. -/
theorem getAccount_store_ext {s : ExecState} {tree : CachedTree} {ll : List Nat}
    {u : Nat} {ha : List Nat} {bag : List Nat} {gen : Bool} {gn : Nat}
    {o : Option Nat} {s' : ExecState}
    (h : getAccount s tree ll u ha bag gen gn = Except.ok (o, s')) :
    ∃ t, s'.store = s.store ++ t := by
  rcases getAccount_cases h with ⟨d, _, _, hs⟩ | ⟨a, _, hs⟩
  · exact ⟨[], by rw [hs, List.append_nil]⟩
  · exact ⟨[a], by rw [hs]⟩

theorem getStore_of_store_append {s s' : ExecState} {t : List EthereumAccount}
    (hs : s'.store = s.store ++ t) {i : Nat} (hi : i < s.store.length) :
    getStore s' i = getStore s i := by
  unfold getStore
  rw [hs]
  exact List.getD_append _ _ _ _ hi

/-- A successful `getAccount` never returns the JS null: the
`toAccount === null` branch of `orderAndExecuteTransactions` is
unreachable. -/
theorem getAccount_ne_none {s : ExecState} {tree : CachedTree} {ll : List Nat}
    {u : Nat} {ha : List Nat} {bag : List Nat} {gen : Bool} {gn : Nat}
    {o : Option Nat} {s' : ExecState}
    (h : getAccount s tree ll u ha bag gen gn = Except.ok (o, s')) : o ≠ none := by
  rcases getAccount_cases h with ⟨d, _, ho, _⟩ | ⟨a, ho, _⟩ <;> rw [ho] <;> simp

/-- A successful id is in range, given that write-set ids are. -/
theorem getAccount_id_lt {s : ExecState} {tree : CachedTree} {ll : List Nat}
    {u : Nat} {ha : List Nat} {bag : List Nat} {gen : Bool} {gn : Nat}
    {fid : Nat} {s' : ExecState}
    (h : getAccount s tree ll u ha bag gen gn = Except.ok (some fid, s'))
    (hWF : ∀ e ∈ s.writeSet, e.2.accountId < s.store.length) :
    fid < s'.store.length := by
  rcases getAccount_cases h with ⟨d, hd, ho, hs⟩ | ⟨a, ho, hs⟩
  · cases ho
    rw [hs]
    exact hWF (u, d) (lookupA_mem hd)
  · cases ho
    rw [hs]
    simp

theorem bumpNonce_writeSet (s : ExecState) (i : Nat) :
    (bumpNonce s i).writeSet = s.writeSet := rfl

theorem getStore_setStore (s : ExecState) (i : Nat) (a : EthereumAccount) (j : Nat) :
    getStore (setStore s i a) j =
      if i = j ∧ i < s.store.length then a else getStore s j := by
  unfold setStore getStore
  simp only [List.getD_eq_getD_get?]
  by_cases hij : i = j
  · subst hij
    by_cases hlt : i < s.store.length
    · rw [List.get?_set_eq_of_lt _ hlt]
      simp [hlt]
    · rw [List.set_eq_of_length_le (Nat.le_of_not_lt hlt)]
      simp [hlt]
  · rw [List.get?_set_ne _ _ hij]
    simp [hij]

/-- Source `nonce += 1` touches no balance, anywhere in the store. -/
theorem getStore_bumpNonce_balance (s : ExecState) (i j : Nat) :
    (getStore (bumpNonce s i) j).balance = (getStore s j).balance := by
  simp only [bumpNonce]
  rw [getStore_setStore]
  split
  · next h =>
      rcases h with ⟨hij, _⟩
      subst hij
      rfl
  · rfl

theorem getStore_bumpNonce_ne (s : ExecState) {i j : Nat} (hij : j ≠ i) :
    getStore (bumpNonce s i) j = getStore s j := by
  simp only [bumpNonce]
  rw [getStore_setStore, if_neg (fun h => hij h.1.symm)]

theorem getStore_bumpNonce_eq (s : ExecState) {i : Nat} (hi : i < s.store.length) :
    (getStore (bumpNonce s i) i).nonce = ((getStore s i).nonce + 1) % U256 := by
  simp only [bumpNonce]
  rw [getStore_setStore, if_pos ⟨rfl, hi⟩]

/-- Every transaction of the batch is processed, in FIFO order: the
loop assigns each one an error code. -/
theorem execLoop_codes_fst (cfg : ConfigurationFile) (vo : Bool) (tree : CachedTree)
    (ln ll : List Nat) (s : ExecState) (txs : List TransactionData) :
    (execLoop cfg vo tree ln ll s txs).2.1.map Prod.fst = txs := by
  induction txs generalizing s with
  | nil => rfl
  | cons tx rest ih => simp [execLoop, ih]

/-- The shard index is always one of the 16 shards. -/
theorem shardOf_lt (c : WriteSetChanges) : shardOf c < 16 := by
  unfold shardOf
  have h1 : (c.hashedAddress.headD 0) &&& 0xF0 ≤ 0xF0 := Nat.and_le_right
  rw [Nat.shiftRight_eq_div_pow]
  have h2 : ((c.hashedAddress.headD 0) &&& 0xF0) / 2 ^ 4 ≤ 0xF0 / 2 ^ 4 :=
    Nat.div_le_div_right h1
  omega

/-- Partitioning a list by a bounded index function preserves total
length: the partition is total and disjoint. -/
theorem filter_length_partition {α : Type} (l : List α) (f : α → Nat) (n : Nat)
    (h : ∀ a ∈ l, f a < n) :
    (∑ i in Finset.range n, (l.filter (fun a => f a = i)).length) = l.length := by
  induction l with
  | nil => simp
  | cons x xs ih =>
      have hx : f x < n := h x (List.mem_cons_self _ _)
      have hxs : ∀ a ∈ xs, f a < n := fun a ha => h a (List.mem_cons_of_mem _ ha)
      have hstep : ∀ i, (List.filter (fun a => decide (f a = i)) (x :: xs)).length
          = (if f x = i then 1 else 0) + (List.filter (fun a => decide (f a = i)) xs).length := by
        intro i
        by_cases hfx : f x = i <;> simp [List.filter_cons, hfx, Nat.add_comm]
      calc (∑ i in Finset.range n, (List.filter (fun a => decide (f a = i)) (x :: xs)).length)
          = ∑ i in Finset.range n,
              ((if f x = i then 1 else 0) + (List.filter (fun a => decide (f a = i)) xs).length) :=
            Finset.sum_congr rfl (fun i _ => hstep i)
        _ = (∑ i in Finset.range n, if f x = i then 1 else 0)
              + ∑ i in Finset.range n, (List.filter (fun a => decide (f a = i)) xs).length :=
            Finset.sum_add_distrib
        _ = 1 + xs.length := by
            rw [ih hxs, Finset.sum_ite_eq (Finset.range n) (f x) (fun _ => 1),
              if_pos (Finset.mem_range.mpr hx)]
        _ = (x :: xs).length := by simp [Nat.add_comm]

/-- Indexing the image of `List.range`. -/
theorem range_map_getD {α : Type} (g : Nat → α) (n i : Nat) (hi : i < n) (d : α) :
    ((List.range n).map g).getD i d = g i := by
  rw [List.getD_eq_getElem _ _ (by simpa using hi)]
  simp

/-- Write-set views are stable under a state change that keeps the
write-set and only appends to the store. -/
theorem views_of_append {s s' : ExecState} (hws : s'.writeSet = s.writeSet)
    (hext : ∃ t, s'.store = s.store ++ t)
    (hWF1 : ∀ e ∈ s.writeSet, e.2.accountId < s.store.length) :
    (∀ addr, wsBalance s' addr = wsBalance s addr) ∧
    (∀ addr, wsNonce s' addr = wsNonce s addr) := by
  obtain ⟨t, ht⟩ := hext
  constructor
  · intro addr
    unfold wsBalance
    rw [hws]
    cases had : lookupA s.writeSet addr with
    | none => rfl
    | some d =>
        show some ((getStore s' d.accountId).balance)
            = some ((getStore s d.accountId).balance)
        rw [getStore_of_store_append ht (hWF1 _ (lookupA_mem had))]
  · intro addr
    unfold wsNonce
    rw [hws]
    cases had : lookupA s.writeSet addr with
    | none => rfl
    | some d =>
        show some ((getStore s' d.accountId).nonce)
            = some ((getStore s d.accountId).nonce)
        rw [getStore_of_store_append ht (hWF1 _ (lookupA_mem had))]

/-- Views after a failed debit: the state is `bumpNonce sX fid` where
`sX` keeps the write-set and appends to the store, and `fid` is either
the object aliased by the write-set entry of the sender address or a
fresh id; then every balance is unchanged, every other address's nonce
is unchanged, and the sender's nonce is unchanged or incremented. -/
theorem invalid_views_bump (s sX : ExecState) (fid faddr : Nat)
    (hws : sX.writeSet = s.writeSet)
    (hext : ∃ t, sX.store = s.store ++ t)
    (hWF : wellFormedWS s)
    (hfid : (∃ dfrom, lookupA s.writeSet faddr = some dfrom ∧ dfrom.accountId = fid)
        ∨ s.store.length ≤ fid) :
    (∀ addr, wsBalance (bumpNonce sX fid) addr = wsBalance s addr) ∧
    (∀ addr, addr ≠ faddr → wsNonce (bumpNonce sX fid) addr = wsNonce s addr) ∧
    (wsNonce (bumpNonce sX fid) faddr = wsNonce s faddr ∨
     wsNonce (bumpNonce sX fid) faddr
       = (wsNonce s faddr).map (fun n => (n + 1) % U256)) := by
  obtain ⟨t, ht⟩ := hext
  obtain ⟨hWF1, hWF2⟩ := hWF
  refine ⟨?_, ?_, ?_⟩
  · intro addr
    unfold wsBalance
    rw [bumpNonce_writeSet, hws]
    cases had : lookupA s.writeSet addr with
    | none => rfl
    | some d =>
        show some ((getStore (bumpNonce sX fid) d.accountId).balance)
            = some ((getStore s d.accountId).balance)
        rw [getStore_bumpNonce_balance,
          getStore_of_store_append ht (hWF1 _ (lookupA_mem had))]
  · intro addr hne
    unfold wsNonce
    rw [bumpNonce_writeSet, hws]
    cases had : lookupA s.writeSet addr with
    | none => rfl
    | some d =>
        have hdne : d.accountId ≠ fid := by
          rcases hfid with ⟨dfrom, hdf, hdfid⟩ | hle
          · have hne2 := lookupA_pairwise_ne hWF2
              (fun a b h => Ne.symm h) hne had hdf
            rw [← hdfid]
            exact hne2
          · have h0 : d.accountId < s.store.length := hWF1 (addr, d) (lookupA_mem had)
            omega
        show some ((getStore (bumpNonce sX fid) d.accountId).nonce)
            = some ((getStore s d.accountId).nonce)
        rw [getStore_bumpNonce_ne sX hdne,
          getStore_of_store_append ht (hWF1 _ (lookupA_mem had))]
  · unfold wsNonce
    rw [bumpNonce_writeSet, hws]
    cases had : lookupA s.writeSet faddr with
    | none => exact Or.inl rfl
    | some d =>
        rcases hfid with ⟨dfrom, hdf, hdfid⟩ | hle
        · rw [had] at hdf
          injection hdf with hdf
          subst hdf
          right
          have hlt : fid < s.store.length := by
            have h0 : d.accountId < s.store.length := hWF1 (faddr, d) (lookupA_mem had)
            rw [← hdfid]
            exact h0
          have hltX : fid < sX.store.length := by
            rw [ht, List.length_append]
            omega
          show some ((getStore (bumpNonce sX fid) d.accountId).nonce)
              = some (((getStore s d.accountId).nonce + 1) % U256)
          rw [hdfid, getStore_bumpNonce_eq sX hltX,
            getStore_of_store_append ht hlt]
        · left
          have hlt : d.accountId < s.store.length := hWF1 (faddr, d) (lookupA_mem had)
          have hdne : d.accountId ≠ fid := by omega
          show some ((getStore (bumpNonce sX fid) d.accountId).nonce)
              = some ((getStore s d.accountId).nonce)
          rw [getStore_bumpNonce_ne sX hdne, getStore_of_store_append ht hlt]

/-- An `ERROR_CODE_INVALID` result of the (dead) creation branch comes
from the failed debit: the state is the nonce-bumped allocation
state. -/
theorem execCreateBranch_invalid (s2 : ExecState) (fid : Nat) (tx : TransactionData)
    (h : (execCreateBranch s2 fid tx).2 = ErrorCode.ERROR_CODE_INVALID) :
    (execCreateBranch s2 fid tx).1
      = bumpNonce { s2 with store := s2.store ++
          [EthereumAccount.mk 0 tx.tx.value
            EthereumAccount.EMPTY_STRING_HASH EthereumAccount.EMPTY_BUFFER_HASH] } fid := by
  simp only [execCreateBranch, alloc] at h ⊢
  split at h
  next hg => rw [if_pos hg]
  next hg => simp at h

/-- An `ERROR_CODE_INVALID` result of the transfer branch comes from
the failed debit: the state is `bumpNonce s2 fid`. -/
theorem execTransferBranch_invalid (s2 : ExecState) (fid tid : Nat)
    (tx : TransactionData)
    (h : (execTransferBranch s2 fid tid tx).2 = ErrorCode.ERROR_CODE_INVALID) :
    (execTransferBranch s2 fid tid tx).1 = bumpNonce s2 fid := by
  simp only [execTransferBranch] at h ⊢
  split at h
  next hc => simp at h
  next hc =>
    split at h
    next hg => rw [if_neg hc, if_pos hg]
    next hg => simp at h

/-! Claim theorems. -/

/-- C1: the peer-block wait of the per-height race NEVER resolves: the
closure installed by `getBlockAdvertisementPromise` ends in the bare
statement `resolve;` without invoking it, so `learnBlock` reports every
promise unresolved; concretely, a peer block for the current height 5
with the matching parent hash 77 is stored in `neighborBlock` with the
race promise left pending, and it is not queued in `learnedBlocks`
either (only strictly future heights are), contradicting the claim that
the peer-block branch of the race fires. -/
theorem claim_C1_peer_block_race_never_resolves :
    (∀ (s : GenState) (b : EthereumBlock), (learnBlock s b).2 = false) ∧
    learnBlock genStateAt5 peerBlockAt5
      = ({ genStateAt5 with neighborBlock := some peerBlockAt5 }, false) ∧
    lookupA (learnBlock genStateAt5 peerBlockAt5).1.learnedBlocks 5 = none := by
  refine ⟨?_, by decide, by decide⟩
  intro s b
  simp only [learnBlock, runBlockResolver]
  split_ifs <;> rfl

/-- C2: executing a transaction to a recipient absent from the
write-set, the tree and the bags does NOT create the recipient: on the
concrete state with A = (nonce 0, balance 100) and B absent, the tx
{A → B, nonce 0, value 40} is marked `ERROR_CODE_INVALID` and the
write-set stays empty (`getAccount` throws on a missing account instead
of returning the null the creation branch tests for), contradicting the
claimed creation of B = (0, 40) and debit of A. -/
theorem claim_C2_absent_recipient_tx_fails :
    (orderAndExecuteTransactions extZero cfgZero treeA [] [] 0 [txToAbsent] false).codes
        = [(txToAbsent, ErrorCode.ERROR_CODE_INVALID)] ∧
    (orderAndExecuteTransactions extZero cfgZero treeA [] [] 0 [txToAbsent] false).writeSet
        = [] := by
  exact ⟨by decide, by decide⟩

/-- C4 counterexample: adopting a peer block whose header claims state
root 999 installs the verify-mode execution tree even though its root
hash (0 under `extZero`) differs from 999, and advances the height —
the block is not rejected, contradicting the claimed root-hash check. -/
theorem claim_C4_counterexample :
    (adoptAlternativeBlock extZero cfgZero 0 genStateAt5 peerBlockAt5).tree.rootHash
        ≠ peerBlockAt5.header.stateRoot ∧
    (adoptAlternativeBlock extZero cfgZero 0 genStateAt5 peerBlockAt5).blockNumber
        = peerBlockAt5.header.blockNumber + 1 ∧
    (adoptAlternativeBlock extZero cfgZero 0 genStateAt5 peerBlockAt5).tree
        = (orderAndExecuteTransactions extZero cfgZero genStateAt5.tree [] [] 0
            (altTxData extZero peerBlockAt5) true).newTree := by
  exact ⟨by decide, by decide, by decide⟩

/-- C4 amended: after a peer block is adopted through verify-mode
execution, the resulting tree is installed unconditionally — the root
hash is never compared with the peer header's `stateRoot` and no
rejection path exists — with `parentHash = Keccak(RLP(peer header))`
and `blockNumber = peer number + 1`. -/
theorem claim_C4_adoption_unconditional :
    ∀ (ext : ExternalLib) (cfg : ConfigurationFile) (now : Nat) (s : GenState)
      (alt : EthereumBlock),
      (adoptAlternativeBlock ext cfg now s alt).tree
          = (orderAndExecuteTransactions ext cfg s.tree s.learnedNodes
              s.lastLearnedNodes now (altTxData ext alt) true).newTree ∧
      (adoptAlternativeBlock ext cfg now s alt).parentHash
          = ext.keccak (ext.headerRlp alt.header) ∧
      (adoptAlternativeBlock ext cfg now s alt).blockNumber
          = alt.header.blockNumber + 1 := by
  intro ext cfg now s alt
  exact ⟨rfl, rfl, rfl⟩

/-- C5 counterexample: with the constructor defaults applied
(powMin = 5000, powMax = 12000), the PoS timer delay is the hardcoded
900 ms, which does not lie in [powMin, powMax] — the delay is neither
random nor drawn from the configured interval. -/
theorem claim_C5_counterexample :
    (applyPowDefaults cfgZero).powMin = some 5000 ∧
    (applyPowDefaults cfgZero).powMax = some 12000 ∧
    (generateProofOfStake genStateAt5 erZero 0).1 = 900 ∧
    ¬(5000 ≤ (generateProofOfStake genStateAt5 erZero 0).1 ∧
      (generateProofOfStake genStateAt5 erZero 0).1 ≤ 12000) := by
  exact ⟨by decide, by decide, by decide, by decide⟩

/-- C5 amended: for every height the PoS timer resolves after a FIXED
900 ms delay (`setTimeout(..., 900)`; `powMin`/`powMax` default to
5000/12000 in the constructor but are not consulted by the timer), and
its header is populated exactly as specified: parentHash, uncleHash 0,
beneficiary, stateRoot, transactionsRoot, receiptsRoot 0, empty
logsBloom, difficulty, gasLimit, gasUsed, timestamp, extraData
"rainblock", mixHash 0, nonce 0, blockNumber. -/
theorem claim_C5_fixed_delay_and_header_fields :
    ∀ (s : GenState) (er : ExecutionResult) (troot : Nat),
      generateProofOfStake s er troot =
        (900, EthereumHeader.mk s.parentHash 0 s.beneficiary er.stateRoot troot 0 []
          s.difficulty s.gasLimit er.gasUsed er.timestamp
          [114, 97, 105, 110, 98, 108, 111, 99, 107] 0 0 s.blockNumber) := by
  intro s er troot
  rfl

/-- C9: `proposeBlock` builds exactly 16 UpdateMsgs, each carrying the
RLP block and the serialized root node; message `i` carries precisely
the write-set entries whose hashed address has top nibble `i` (as the
op with unhashed 20-byte address, 32-byte big-endian balance and the
nonce), every entry's shard index is below 16, and the 16 op lists
partition the write-set (total and disjoint routing). -/
theorem claim_C9_shard_routing_total_disjoint :
    ∀ (ext : ExternalLib) (tree : CachedTree) (header : EthereumHeader)
      (exec : ExecutionResult),
      (buildShardMessages ext tree header exec).length = 16 ∧
      (∀ i, i < 16 →
        (buildShardMessages ext tree header exec).getD i default =
          UpdateMsg.mk (ext.encodeBlock header (exec.order.map (fun d => d.txRlp)))
            tree.rootSerialized
            ((exec.writeSet.filter (fun e => shardOf e.2 = i)).map
              (fun e => buildUpdateOp e.1 e.2))) ∧
      (∀ e ∈ exec.writeSet, shardOf e.2 < 16) ∧
      (∑ i in Finset.range 16,
          (exec.writeSet.filter (fun e => shardOf e.2 = i)).length)
        = exec.writeSet.length := by
  intro ext tree header exec
  refine ⟨rfl, ?_, fun e _ => shardOf_lt e.2,
    filter_length_partition _ _ _ (fun e _ => shardOf_lt e.2)⟩
  intro i hi
  unfold buildShardMessages
  rw [range_map_getD _ _ _ hi]

/-- C9 witness: the per-shard message equation holds at shard 0 on a
concrete tree, header and execution result. -/
theorem claim_C9_witness :
    (0 < 16) ∧
    (buildShardMessages extZero treeA hdrZero erZero).getD 0 default
      = UpdateMsg.mk (extZero.encodeBlock hdrZero (erZero.order.map (fun d => d.txRlp)))
          treeA.rootSerialized
          ((erZero.writeSet.filter (fun e => shardOf e.2 = 0)).map
            (fun e => buildUpdateOp e.1 e.2)) := by
  refine ⟨by decide, ?_⟩
  exact (claim_C9_shard_routing_total_disjoint extZero treeA hdrZero erZero).2.1 0 (by decide)

/-- C10: `addTransaction` ignores its hash argument and appends to the
queue tail; submitting the same transaction twice (same hash) yields
two distinct queue entries, both of which are gathered (no per-block
cap configured) and both of which are executed, each receiving its own
error code — the queue performs no deduplication. -/
theorem claim_C10_no_dedup :
    (∀ (q : List TransactionData) (h1 h2 : Nat) (d : TransactionData),
      addTransaction q h1 d = addTransaction q h2 d) ∧
    (∀ (h1 h2 : Nat) (d : TransactionData),
      addTransaction (addTransaction [] h1 d) h2 d = [d, d]) ∧
    (∀ (h1 h2 : Nat) (d : TransactionData),
      gatherTxs cfgZero (addTransaction (addTransaction [] h1 d) h2 d) = [d, d]) ∧
    (∀ (ext : ExternalLib) (cfg : ConfigurationFile) (tree : CachedTree)
      (ln ll : List Nat) (now : Nat) (vo : Bool) (h1 h2 : Nat) (d : TransactionData),
      (orderAndExecuteTransactions ext cfg tree ln ll now
        (addTransaction (addTransaction [] h1 d) h2 d) vo).codes.map Prod.fst
        = [d, d]) := by
  refine ⟨fun q h1 h2 d => rfl, fun h1 h2 d => rfl, fun h1 h2 d => rfl, ?_⟩
  intro ext cfg tree ln ll now vo h1 h2 d
  show (execLoop cfg vo tree ln ll (ExecState.mk [] [] [])
    (addTransaction (addTransaction [] h1 d) h2 d)).2.1.map Prod.fst = [d, d]
  rw [execLoop_codes_fst]
  rfl

/-- C7: a loop iteration — whether it adopts a learned block up-front,
adopts the neighbor block after the race, or proposes its own block —
advances `blockNumber` by exactly 1 (hence it is monotone), and sets
`parentHash` to the Keccak hash of the RLP-encoded header of the block
it adopted; the hypothesis states the invariant that `learnedBlocks` is
keyed by each block's own number, which `learnBlock` maintains. -/
theorem claim_C7_height_advances_by_one (ext : ExternalLib) (cfg : ConfigurationFile)
    (now : Nat) (nb : Option EthereumBlock) (s : GenState)
    (hkeys : ∀ k b, lookupA s.learnedBlocks k = some b → b.header.blockNumber = k) :
    (generateStep ext cfg now nb s).1.blockNumber = s.blockNumber + 1 ∧
    (generateStep ext cfg now nb s).1.parentHash
      = ext.keccak (ext.headerRlp (generateStep ext cfg now nb s).2) := by
  unfold generateStep
  cases hlb : lookupA s.learnedBlocks s.blockNumber with
  | some alt =>
      have halt := hkeys _ _ hlb
      simp only [hlb, adoptAlternativeBlock]
      refine ⟨by rw [halt], ?_⟩
      trivial
  | none =>
      simp only [hlb]
      cases nb with
      | none => constructor <;> trivial
      | some nb' =>
          by_cases hn : nb'.header.blockNumber = s.blockNumber
          · simp only [if_pos hn, adoptAlternativeBlock]
            refine ⟨by rw [hn], ?_⟩
            trivial
          · simp only [if_neg hn]
            constructor <;> trivial

/-- C8: with the nonce check enabled (`disableNonceCheck` unset), a
transaction is assigned `ERROR_CODE_SUCCESS` only when its nonce equals
the nonce of the sender account as fetched through the write-set
overlay and then the tree (`fromFetch`); whenever the fetched sender's
nonce differs from the transaction nonce, the transaction is assigned
`ERROR_CODE_INVALID`. -/
theorem claim_C8_nonce_check (cfg : ConfigurationFile) (vo : Bool) (tree : CachedTree)
    (ln ll : List Nat) (s : ExecState) (tx : TransactionData)
    (hnd : cfg.disableNonceCheck = false) :
    ((executeOneTx cfg vo tree ln ll s tx).2 = ErrorCode.ERROR_CODE_SUCCESS →
      ∃ fid s1, fromFetch cfg vo tree ln ll s tx = Except.ok (some fid, s1) ∧
        (getStore s1 fid).nonce = tx.tx.nonce) ∧
    (∀ fid s1, fromFetch cfg vo tree ln ll s tx = Except.ok (some fid, s1) →
      (getStore s1 fid).nonce ≠ tx.tx.nonce →
      (executeOneTx cfg vo tree ln ll s tx).2 = ErrorCode.ERROR_CODE_INVALID) := by
  cases hf : fromFetch cfg vo tree ln ll s tx with
  | error e =>
      constructor
      · intro h
        simp only [executeOneTx, hf] at h
        exact absurd h (by decide)
      · intro fid s1 hfid
        exact absurd hfid (by simp)
  | ok p =>
      obtain ⟨o, s1⟩ := p
      cases o with
      | none =>
          constructor
          · intro h
            simp only [executeOneTx, hf] at h
            exact absurd h (by decide)
          · intro fid s1' hfid
            simp at hfid
      | some fid =>
          by_cases hnc : tx.tx.nonce = (getStore s1 fid).nonce
          · constructor
            · intro _
              exact ⟨fid, s1, rfl, hnc.symm⟩
            · intro fid' s1' hfid hne
              injection hfid with hfid
              injection hfid with hfid1 hfid2
              injection hfid1 with hfid1
              subst hfid1
              subst hfid2
              exact absurd hnc.symm hne
          · have hcond : ¬ cfg.disableNonceCheck ∧ tx.tx.nonce ≠ (getStore s1 fid).nonce :=
              ⟨by rw [hnd]; exact Bool.false_ne_true, hnc⟩
            constructor
            · intro h
              simp only [executeOneTx, hf, if_pos hcond] at h
              exact absurd h (by decide)
            · intro fid' s1' hfid hne
              simp only [executeOneTx, hf, if_pos hcond]

/-- C8 witness: with the default configuration (nonce check enabled), a
concrete transaction whose nonce 0 matches sender A's nonce 0 executes
with `ERROR_CODE_SUCCESS`, and its fetched sender nonce equals the
transaction nonce. -/
theorem claim_C8_witness :
    cfgZero.disableNonceCheck = false ∧
    (executeOneTx cfgZero false treeAC [] [] execStateZero txTransfer1).2
      = ErrorCode.ERROR_CODE_SUCCESS ∧
    (∃ fid s1, fromFetch cfgZero false treeAC [] [] execStateZero txTransfer1
        = Except.ok (some fid, s1) ∧ (getStore s1 fid).nonce = txTransfer1.tx.nonce) := by
  refine ⟨rfl, by decide, ?_⟩
  exact (claim_C8_nonce_check cfgZero false treeAC [] [] execStateZero txTransfer1 rfl).1
    (by decide)

/-- C3: when a transaction reaching the simple-transfer path would
transfer more than the fetched sender's balance, the debit underflow is
an execution error (modelled from spec §4.1, `ethereumAccount.ts` not
being under `src/`): the transaction is assigned `ERROR_CODE_INVALID`
and no balance visible through the write-set changes — in particular
the sender's balance neither goes below zero nor wraps.  The hypotheses
fix the path: the sender fetch succeeds, the nonce check passes, the
recipient is not the contract-creation sentinel, the recipient fetch
succeeds and the recipient has no code; `hWF` is the store invariant of
real executions. -/
theorem claim_C3_overdraw_is_execution_error (cfg : ConfigurationFile) (vo : Bool)
    (tree : CachedTree) (ln ll : List Nat) (s : ExecState) (tx : TransactionData)
    (fid : Nat) (s1 : ExecState) (tid : Nat) (s2 : ExecState)
    (hWF : ∀ e ∈ s.writeSet, e.2.accountId < s.store.length)
    (hf : fromFetch cfg vo tree ln ll s tx = Except.ok (some fid, s1))
    (hn : cfg.disableNonceCheck = true ∨ tx.tx.nonce = (getStore s1 fid).nonce)
    (hcc : tx.tx.to_ ≠ CONTRACT_CREATION)
    (ht : toFetch tree ll (txProofs cfg vo ln (addTxProofsToBags vo s tx).shareBag tx) s1 tx
        = Except.ok (some tid, s2))
    (hcode : (getStore s2 tid).hasCode = false)
    (hval : tx.tx.value > (getStore s1 fid).balance) :
    (executeOneTx cfg vo tree ln ll s tx).2 = ErrorCode.ERROR_CODE_INVALID ∧
    (∀ addr, wsBalance (executeOneTx cfg vo tree ln ll s tx).1 addr = wsBalance s addr) := by
  have hws0 := addTxProofsToBags_writeSet vo s tx
  have hst0 := addTxProofsToBags_store vo s tx
  have hWF0 : ∀ e ∈ (addTxProofsToBags vo s tx).writeSet,
      e.2.accountId < (addTxProofsToBags vo s tx).store.length := by
    rw [hws0, hst0]
    exact hWF
  have hf' : getAccount (addTxProofsToBags vo s tx) tree ll tx.tx.from_ tx.fromHash
      (txProofs cfg vo ln (addTxProofsToBags vo s tx).shareBag tx)
      cfg.generateFromAccounts tx.tx.nonce = Except.ok (some fid, s1) := hf
  have ht' : getAccount s1 tree ll tx.tx.to_ tx.toHash
      (txProofs cfg vo ln (addTxProofsToBags vo s tx).shareBag tx) false 0
      = Except.ok (some tid, s2) := ht
  have hs1ws : s1.writeSet = s.writeSet := (getAccount_writeSet hf').trans hws0
  obtain ⟨t1, hs1store⟩ := getAccount_store_ext hf'
  obtain ⟨t2, hs2store⟩ := getAccount_store_ext ht'
  have hs2ws : s2.writeSet = s1.writeSet := getAccount_writeSet ht'
  have hfid_lt : fid < s1.store.length := getAccount_id_lt hf' hWF0
  have hbal12 : getStore s2 fid = getStore s1 fid :=
    getStore_of_store_append hs2store hfid_lt
  have hguard : tx.tx.value > (getStore (bumpNonce s2 fid) fid).balance := by
    rw [getStore_bumpNonce_balance, hbal12]
    exact hval
  have hncond : ¬(¬ cfg.disableNonceCheck ∧ tx.tx.nonce ≠ (getStore s1 fid).nonce) := by
    rcases hn with h | h
    · intro hc
      exact hc.1 (by rw [h])
    · intro hc
      exact hc.2 h
  have hcodeTrue : ¬((getStore s2 tid).hasCode = true) := by
    rw [hcode]
    exact Bool.false_ne_true
  have hresult : executeOneTx cfg vo tree ln ll s tx
      = (bumpNonce s2 fid, ErrorCode.ERROR_CODE_INVALID) := by
    simp only [executeOneTx, hf, if_neg hncond, if_neg hcc, ht, execTransferBranch,
      if_neg hcodeTrue, if_pos hguard]
  rw [hresult]
  refine ⟨rfl, ?_⟩
  intro addr
  unfold wsBalance
  rw [bumpNonce_writeSet, hs2ws, hs1ws]
  cases had : lookupA s.writeSet addr with
  | none => rfl
  | some d =>
      have hid_lt : d.accountId < s.store.length := hWF (addr, d) (lookupA_mem had)
      have hid_lt1 : d.accountId < s1.store.length := by
        rw [hs1store, hst0, List.length_append]
        omega
      have h21 : getStore s2 d.accountId = getStore s1 d.accountId :=
        getStore_of_store_append hs2store hid_lt1
      have h10 : getStore s1 d.accountId = getStore (addTxProofsToBags vo s tx) d.accountId := by
        refine getStore_of_store_append hs1store ?_
        rw [hst0]
        exact hid_lt
      have h0s : getStore (addTxProofsToBags vo s tx) d.accountId = getStore s d.accountId := by
        unfold getStore
        rw [hst0]
      show some ((getStore (bumpNonce s2 fid) d.accountId).balance)
          = some ((getStore s d.accountId).balance)
      rw [getStore_bumpNonce_balance, h21, h10, h0s]

/-- C3 witness: on the concrete genesis A = (0, 100), C = (0, 0), the
transaction {A → C, nonce 0, value 1000} satisfies every hypothesis and
is marked `ERROR_CODE_INVALID`, with every write-set balance (there are
none yet) unchanged. -/
theorem claim_C3_witness :
    (fromFetch cfgZero false treeAC [] [] execStateZero txOverdrawNonce0
        = Except.ok (some 0, ExecState.mk [plainAccount 0 100] [] [])) ∧
    txOverdrawNonce0.tx.value
        > (getStore (ExecState.mk [plainAccount 0 100] [] []) 0).balance ∧
    (executeOneTx cfgZero false treeAC [] [] execStateZero txOverdrawNonce0).2
        = ErrorCode.ERROR_CODE_INVALID := by
  refine ⟨by rfl, by decide, ?_⟩
  refine (claim_C3_overdraw_is_execution_error cfgZero false treeAC [] [] execStateZero
    txOverdrawNonce0 0 (ExecState.mk [plainAccount 0 100] [] []) 1
    (ExecState.mk [plainAccount 0 100, plainAccount 0 0] [] [])
    (fun e he => absurd he (List.not_mem_nil e))
    (by rfl) (Or.inr (by decide)) (by decide) (by rfl) (by decide) (by decide)).1

/-- C6 counterexample: on genesis A = (0, 100), C = (0, 0), running
[tx1 = {A → C, nonce 0, value 10}, tx2 = {A → C, nonce 1, value 1000}]
marks tx2 `ERROR_CODE_INVALID`, yet the write-set is NOT unchanged
relative to before tx2: A's nonce seen through the write-set is 1 after
tx1 alone but 2 after the failed tx2 — the `nonce += 1` executed before
the failing debit mutates the account object aliased by the write-set
entry.  This contradicts the claimed absence of partial mutation. -/
theorem claim_C6_counterexample :
    (orderAndExecuteTransactions extZero cfgZero treeAC [] [] 0
        [txTransfer1, txOverdraw] false).codes
      = [(txTransfer1, ErrorCode.ERROR_CODE_SUCCESS),
         (txOverdraw, ErrorCode.ERROR_CODE_INVALID)] ∧
    wsNonce (resultState (orderAndExecuteTransactions extZero cfgZero treeAC [] [] 0
        [txTransfer1] false)) 10 = some 1 ∧
    wsNonce (resultState (orderAndExecuteTransactions extZero cfgZero treeAC [] [] 0
        [txTransfer1, txOverdraw] false)) 10 = some 2 := by
  exact ⟨by decide, by decide, by decide⟩

/-- C6 amended: transaction-scoped errors are isolated — every thrown
step of a transaction's execution sets its errorCode to
`ERROR_CODE_INVALID` and the loop continues with the next transaction
in FIFO order (every transaction of the batch receives an error code,
in order); for a failed transaction no balance visible through the
write-set changes and no nonce of any address other than the sender
changes, and the sender's write-set nonce is either unchanged (when the
error is raised by the pre-mutation checks: sender lookup, nonce check,
contract-creation check, recipient lookup) or incremented once (when
the spec-modelled debit underflow error fires after `nonce += 1` on a
sender account aliased from the write-set). -/
theorem claim_C6_error_isolation (cfg : ConfigurationFile) (vo : Bool)
    (tree : CachedTree) (ln ll : List Nat) (s : ExecState) (tx : TransactionData)
    (hWF : wellFormedWS s) :
    ((executeOneTx cfg vo tree ln ll s tx).2 = ErrorCode.ERROR_CODE_INVALID →
      (∀ addr, wsBalance (executeOneTx cfg vo tree ln ll s tx).1 addr
          = wsBalance s addr) ∧
      (∀ addr, addr ≠ tx.tx.from_ →
        wsNonce (executeOneTx cfg vo tree ln ll s tx).1 addr = wsNonce s addr) ∧
      (wsNonce (executeOneTx cfg vo tree ln ll s tx).1 tx.tx.from_
          = wsNonce s tx.tx.from_ ∨
       wsNonce (executeOneTx cfg vo tree ln ll s tx).1 tx.tx.from_
          = (wsNonce s tx.tx.from_).map (fun n => (n + 1) % U256))) ∧
    (∀ (sB : ExecState) (txs : List TransactionData),
      (execLoop cfg vo tree ln ll sB txs).2.1.map Prod.fst = txs) := by
  refine ⟨?_, fun sB txs => execLoop_codes_fst cfg vo tree ln ll sB txs⟩
  intro hinv
  have hws0 := addTxProofsToBags_writeSet vo s tx
  have hst0 := addTxProofsToBags_store vo s tx
  have hplain : ∀ s' : ExecState, s'.writeSet = s.writeSet →
      (∃ t, s'.store = s.store ++ t) →
      (∀ addr, wsBalance s' addr = wsBalance s addr) ∧
      (∀ addr, addr ≠ tx.tx.from_ → wsNonce s' addr = wsNonce s addr) ∧
      (wsNonce s' tx.tx.from_ = wsNonce s tx.tx.from_ ∨
       wsNonce s' tx.tx.from_ = (wsNonce s tx.tx.from_).map (fun n => (n + 1) % U256)) := by
    intro s' h1 h2
    obtain ⟨hb, hn⟩ := views_of_append h1 h2 hWF.1
    exact ⟨hb, fun addr _ => hn addr, Or.inl (hn _)⟩
  cases hf : fromFetch cfg vo tree ln ll s tx with
  | error e =>
      have hres : (executeOneTx cfg vo tree ln ll s tx).1 = addTxProofsToBags vo s tx := by
        simp only [executeOneTx, hf]
      rw [hres]
      exact hplain _ hws0 ⟨[], by rw [hst0, List.append_nil]⟩
  | ok p =>
      obtain ⟨o, s1⟩ := p
      have hf' : getAccount (addTxProofsToBags vo s tx) tree ll tx.tx.from_ tx.fromHash
          (txProofs cfg vo ln (addTxProofsToBags vo s tx).shareBag tx)
          cfg.generateFromAccounts tx.tx.nonce = Except.ok (o, s1) := hf
      have hs1ws : s1.writeSet = s.writeSet := (getAccount_writeSet hf').trans hws0
      obtain ⟨t1, hs1store⟩ := getAccount_store_ext hf'
      have hs1ext : ∃ t, s1.store = s.store ++ t :=
        ⟨t1, by rw [hs1store, hst0]⟩
      cases o with
      | none =>
          have hres : (executeOneTx cfg vo tree ln ll s tx).1 = s1 := by
            simp only [executeOneTx, hf]
          rw [hres]
          exact hplain s1 hs1ws hs1ext
      | some fid =>
          have hdich : (∃ dfrom, lookupA s.writeSet tx.tx.from_ = some dfrom ∧
              dfrom.accountId = fid) ∨ s.store.length ≤ fid := by
            rcases getAccount_cases hf' with ⟨d, hd, ho, _⟩ | ⟨a, ho, _⟩
            · left
              rw [hws0] at hd
              injection ho with ho
              exact ⟨d, hd, ho.symm⟩
            · right
              injection ho with ho
              rw [ho, hst0]
          by_cases hnc : ¬ cfg.disableNonceCheck ∧ tx.tx.nonce ≠ (getStore s1 fid).nonce
          · have hres : (executeOneTx cfg vo tree ln ll s tx).1 = s1 := by
              simp only [executeOneTx, hf, if_pos hnc]
            rw [hres]
            exact hplain s1 hs1ws hs1ext
          · by_cases hccc : tx.tx.to_ = CONTRACT_CREATION
            · have hres : (executeOneTx cfg vo tree ln ll s tx).1 = s1 := by
                simp only [executeOneTx, hf, if_neg hnc, if_pos hccc]
              rw [hres]
              exact hplain s1 hs1ws hs1ext
            · cases ht : toFetch tree ll
                  (txProofs cfg vo ln (addTxProofsToBags vo s tx).shareBag tx) s1 tx with
              | error e2 =>
                  have hres : (executeOneTx cfg vo tree ln ll s tx).1 = s1 := by
                    simp only [executeOneTx, hf, if_neg hnc, if_neg hccc, ht]
                  rw [hres]
                  exact hplain s1 hs1ws hs1ext
              | ok q =>
                  obtain ⟨o2, s2⟩ := q
                  have ht' : getAccount s1 tree ll tx.tx.to_ tx.toHash
                      (txProofs cfg vo ln (addTxProofsToBags vo s tx).shareBag tx) false 0
                      = Except.ok (o2, s2) := ht
                  have hs2ws : s2.writeSet = s.writeSet :=
                    (getAccount_writeSet ht').trans hs1ws
                  obtain ⟨t2, hs2store⟩ := getAccount_store_ext ht'
                  obtain ⟨tA, hs1storeA⟩ := hs1ext
                  have hs2ext : ∃ t, s2.store = s.store ++ t :=
                    ⟨tA ++ t2, by rw [hs2store, hs1storeA, List.append_assoc]⟩
                  cases o2 with
                  | none =>
                      have hres : executeOneTx cfg vo tree ln ll s tx
                          = execCreateBranch s2 fid tx := by
                        simp only [executeOneTx, hf, if_neg hnc, if_neg hccc, ht]
                      rw [hres] at hinv ⊢
                      rw [execCreateBranch_invalid s2 fid tx hinv]
                      obtain ⟨tB, hsB⟩ := hs2ext
                      refine invalid_views_bump s _ fid tx.tx.from_ hs2ws
                        ⟨tB ++ [EthereumAccount.mk 0 tx.tx.value
                          EthereumAccount.EMPTY_STRING_HASH
                          EthereumAccount.EMPTY_BUFFER_HASH], ?_⟩ hWF hdich
                      show s2.store ++ [EthereumAccount.mk 0 tx.tx.value
                          EthereumAccount.EMPTY_STRING_HASH
                          EthereumAccount.EMPTY_BUFFER_HASH] = _
                      rw [hsB, List.append_assoc]
                  | some tid =>
                      have hres : executeOneTx cfg vo tree ln ll s tx
                          = execTransferBranch s2 fid tid tx := by
                        simp only [executeOneTx, hf, if_neg hnc, if_neg hccc, ht]
                      rw [hres] at hinv ⊢
                      rw [execTransferBranch_invalid s2 fid tid tx hinv]
                      exact invalid_views_bump s s2 fid tx.tx.from_ hs2ws hs2ext hWF hdich

/-- C6 witness: the amended theorem applies at the empty (well-formed)
execution state with a concretely failing transaction: its code is
`ERROR_CODE_INVALID` and every write-set balance is unchanged. -/
theorem claim_C6_witness :
    wellFormedWS execStateZero ∧
    (executeOneTx cfgZero false treeAC [] [] execStateZero txOverdrawNonce0).2
      = ErrorCode.ERROR_CODE_INVALID ∧
    (∀ addr, wsBalance
        (executeOneTx cfgZero false treeAC [] [] execStateZero txOverdrawNonce0).1 addr
      = wsBalance execStateZero addr) := by
  have hwf : wellFormedWS execStateZero :=
    ⟨fun e he => absurd he (List.not_mem_nil e), List.Pairwise.nil⟩
  refine ⟨hwf, by decide, ?_⟩
  exact ((claim_C6_error_isolation cfgZero false treeAC [] [] execStateZero
    txOverdrawNonce0 hwf).1 (by decide)).1

/-- C7 witness: the hypothesis and conclusion hold at a concrete state
with no learned blocks. -/
theorem claim_C7_witness :
    (∀ k b, lookupA genStateC7.learnedBlocks k = some b → b.header.blockNumber = k) ∧
    (generateStep extZero cfgZero 0 none genStateC7).1.blockNumber
      = genStateC7.blockNumber + 1 := by
  have hk : ∀ k b, lookupA genStateC7.learnedBlocks k = some b →
      b.header.blockNumber = k := by
    intro k b h
    simp [genStateC7, lookupA] at h
  exact ⟨hk, (claim_C7_height_advances_by_one extZero cfgZero 0 none genStateC7 hk).1⟩

end Rainblock
